/-
Verification of the class-namespaces library (namespace resolution engine).

The definitions below are a shallow embedding of the current source tree
(`src/class_namespaces/`, the `NamespaceableMeta` variant): `ops.py`,
`namespaces.py` (`_NamespaceProxy`, `Namespace`, `_NamespaceScope`,
`NamespaceableMeta`) and `descriptor_inspector.py`.  Where the repository
also ships the older flat-layout variant (`_Namespaceable`), the older
behaviour is embedded separately and named `old*`.

Python dictionaries are embedded as association lists with unique keys,
object identity as natural-number ids, and raising as explicit result
constructors.
-/

import Mathlib

namespace ClassNamespaces

/-! ## Association-list primitives (Python `dict` operations) -/

/-- `d[k]`, returning `none` for a `KeyError`. -/
def alookup {κ α : Type} [DecidableEq κ] : List (κ × α) → κ → Option α
  | [], _ => none
  | (k', v) :: rest, k => if k' = k then some v else alookup rest k

/-- `d[k] = v`: replace in place if present, else append (dict insertion order). -/
def storeKey {κ α : Type} [DecidableEq κ] : List (κ × α) → κ → α → List (κ × α)
  | [], k, v => [(k, v)]
  | (k', v') :: rest, k, v =>
      if k' = k then (k, v) :: rest else (k', v') :: storeKey rest k v

/-- `del d[k]`: `none` signals a `KeyError`. -/
def delKey {κ α : Type} [DecidableEq κ] : List (κ × α) → κ → Option (List (κ × α))
  | [], _ => none
  | (k', v') :: rest, k =>
      if k' = k then some rest
      else match delKey rest k with
        | some rest' => some ((k', v') :: rest')
        | none => none

/-- The keys of an association list are pairwise distinct (the `dict` invariant). -/
def keysUnique {κ α : Type} [DecidableEq κ] : List (κ × α) → Bool
  | [] => true
  | (k, _) :: rest => (alookup rest k).isNone && keysUnique rest

/-! ## Values and descriptor capabilities (`descriptor_inspector.py`, `ops.py`)

`_DescriptorInspector` wraps a value and reports whether the value's type
chain defines `__get__` / `__set__` / `__delete__`.  A value is embedded as
its capability triple plus a payload identifying the underlying object. -/

structure Value where
  hasGet : Bool
  hasSet : Bool
  hasDelete : Bool
  payload : Nat
  deriving DecidableEq, Repr

/-- `_DescriptorInspector.is_data`: `has_set or has_delete`. -/
def Value.isData (v : Value) : Bool := v.hasSet || v.hasDelete

/-- A plain object with no descriptor hooks. -/
def plainValue (n : Nat) : Value := ⟨false, false, false, n⟩

/-- A plain function: `__get__` only (non-data descriptor). -/
def functionValue (n : Nat) : Value := ⟨true, false, false, n⟩

/-- `ops.get`: wrapped lookup, `None` when the key is missing. -/
def opsGet (aMap : List (String × Value)) (name : String) : Option Value :=
  alookup aMap name

/-- `ops.has_get(value)`: `value is not None and value.has_get`. -/
def opsHasGet : Option Value → Bool
  | none => false
  | some v => v.hasGet

/-- `ops.is_data(value)`: `value is not None and value.is_data`. -/
def opsIsData : Option Value → Bool
  | none => false
  | some v => v.isData

/-- `ops.get_data`: the wrapped value if it is a data descriptor, else `None`. -/
def opsGetData (dct : List (String × Value)) (name : String) : Option Value :=
  match opsGet dct name with
  | some v => if v.isData then some v else none
  | none => none

/-! ## `_NamespaceProxy.__getattribute__` (namespaces.py)

After `_retarget`, the proxy holds `(dct, instance, owner)`; the lookup
computes `instance_map` and `mro_map` and picks a branch.  The observable
outcome is embedded as a `GetAttrResult`:
`getDispatch v i o` is the call `v.get(i, o)` (i.e. `__get__` dispatch with
instance argument `i` and owner argument `o`), `rawValue v` returns the raw
stored object `v.object`, and `attributeError` is `raise AttributeError`. -/

inductive GetAttrResult where
  | getDispatch (v : Value) (instArg : Option Nat) (ownerArg : Option Nat)
  | rawValue (v : Value)
  | attributeError (name : String)
  deriving DecidableEq, Repr

/-- `_NamespaceProxy.__getattribute__`, after retargeting.  `ownerIsType` is
`issubclass(owner, type)`; `inst` is the (possibly `None`) instance id and
`owner` the owner-class id; `instanceMap` and `mroMap` are the two chained
lookups already flattened to first-match-wins association lists. -/
def proxyGetattribute (ownerIsType : Bool) (inst : Option Nat) (owner : Nat)
    (instanceMap mroMap : List (String × Value)) (name : String) : GetAttrResult :=
  match opsGet mroMap name, opsGet instanceMap name with
  | some mroValue, some instanceValue =>
      if mroValue.isData && mroValue.hasGet then
        .getDispatch mroValue inst (some owner)
      else if ownerIsType && instanceValue.hasGet then
        .getDispatch instanceValue none inst
      else
        .rawValue instanceValue
  | some mroValue, none =>
      if mroValue.isData && mroValue.hasGet then
        .getDispatch mroValue inst (some owner)
      else if mroValue.hasGet then
        .getDispatch mroValue inst (some owner)
      else
        .rawValue mroValue
  | none, some instanceValue =>
      if ownerIsType && instanceValue.hasGet then
        .getDispatch instanceValue none inst
      else
        .rawValue instanceValue
  | none, none => .attributeError name

/-! ## `_NamespaceProxy.__setattr__` and `__delattr__` (instance present) -/

/-- Outcome of `__setattr__` with a non-`None` instance: either a data
descriptor's `set(instance, value)` is dispatched, or the value is stored
into the per-instance namespace at this path. -/
inductive SetAttrResult where
  | descrSet (d : Value) (inst : Nat) (v : Value)
  | stored (newInstanceMap : List (String × Value))
  deriving DecidableEq, Repr

/-- `_NamespaceProxy.__setattr__` for `instance is not None`: consult the
chained `mro_map` for a data descriptor, else write into the instance
namespace. -/
def proxySetattr (inst : Nat) (mroMap instanceMap : List (String × Value))
    (name : String) (v : Value) : SetAttrResult :=
  match opsGetData mroMap name with
  | some targetValue => .descrSet targetValue inst v
  | none => .stored (storeKey instanceMap name v)

/-- Outcome of `__delattr__` with a non-`None` instance. -/
inductive DelAttrResult where
  | descrDelete (d : Value) (inst : Nat)
  | deleted (newInstanceMap : List (String × Value))
  | attributeError (name : String)
  deriving DecidableEq, Repr

/-- `_NamespaceProxy.__delattr__` for `instance is not None`: the code
consults `real_map = dct.get_namespace(owner, dct.path)` — the owner class's
own namespace at this path, not the chained mro map — for a data descriptor,
else deletes from the per-instance namespace (`AttributeError` if missing). -/
def proxyDelattr (inst : Nat) (realMap instanceMap : List (String × Value))
    (name : String) : DelAttrResult :=
  match opsGetData realMap name with
  | some value => .descrDelete value inst
  | none =>
      match delKey instanceMap name with
      | some m => .deleted m
      | none => .attributeError name

/-- The delete behaviour the specification describes: symmetric to set,
consulting the same chained `mro_map` as `__setattr__` does.  (Spec-side
definition, for comparison with `proxyDelattr`.) -/
def specDelattr (inst : Nat) (mroMap instanceMap : List (String × Value))
    (name : String) : DelAttrResult :=
  match opsGetData mroMap name with
  | some value => .descrDelete value inst
  | none =>
      match delKey instanceMap name with
      | some m => .deleted m
      | none => .attributeError name

/-- The resolution priority exactly as the specification states it: the first
branch fires whenever the mro-side value is a data descriptor, with no
requirement that it also have a get hook.  (Spec-side definition, for
comparison with `proxyGetattribute`.) -/
def claimedGetPriority (ownerIsType : Bool) (inst : Option Nat) (owner : Nat)
    (instanceMap mroMap : List (String × Value)) (name : String) : GetAttrResult :=
  match opsGet mroMap name, opsGet instanceMap name with
  | some mroValue, some instanceValue =>
      if mroValue.isData then
        .getDispatch mroValue inst (some owner)
      else if ownerIsType && instanceValue.hasGet then
        .getDispatch instanceValue none inst
      else
        .rawValue instanceValue
  | some mroValue, none =>
      if mroValue.isData then
        .getDispatch mroValue inst (some owner)
      else if mroValue.hasGet then
        .getDispatch mroValue inst (some owner)
      else
        .rawValue mroValue
  | none, some instanceValue =>
      if ownerIsType && instanceValue.hasGet then
        .getDispatch instanceValue none inst
      else
        .rawValue instanceValue
  | none, none => .attributeError name

/-! ## `Namespace.push` — binding name, scope and parent (namespaces.py)

The three identity fields of a `Namespace` are embedded as options (unset =
`None`); scopes and parent dicts are identified by ids.  `push` performs
`set_if_none` on each field, then `validate_assignment` (name, then scope)
and `validate_parent`, then appends `self` to `scope.namespaces` and
re-activates when `needs_setup` is set. -/

structure PushNs where
  name : Option String
  scope : Option Nat
  parent : Option Nat
  needsSetup : Bool
  deriving DecidableEq, Repr

inductive BindConflict where
  | rename | reuse | reparent
  deriving DecidableEq, Repr

/-- `Namespace.set_if_none`, specialised to one optional field. -/
def set_if_none {α : Type} (cur : Option α) (v : α) : Option α :=
  match cur with
  | none => some v
  | some x => some x

/-- Result of `Namespace.push`: the namespace's identity fields afterwards,
the conflict raised (if any), whether `self` was appended to
`scope.namespaces`, and whether `activate()` was invoked at the end. -/
structure PushOut where
  ns : PushNs
  err : Option BindConflict
  appended : Bool
  activated : Bool
  deriving DecidableEq, Repr

/-- `Namespace.push(name, scope, parent)`. -/
def push (ns : PushNs) (name : String) (scope parent : Nat) : PushOut :=
  let ns1 : PushNs :=
    { ns with
      name := set_if_none ns.name name
      scope := set_if_none ns.scope scope
      parent := set_if_none ns.parent parent }
  if ns1.name ≠ some name then ⟨ns1, some .rename, false, false⟩
  else if ns1.scope ≠ some scope then ⟨ns1, some .reuse, false, false⟩
  else if ns1.parent ≠ some parent then ⟨ns1, some .reparent, false, false⟩
  else ⟨ns1, none, true, ns1.needsSetup⟩

/-! ## `NamespaceableMeta.__setattr__` with a plain name and a `Namespace`
value (namespaces.py)

The guard is `'.' not in name and isinstance(value, Namespace) and
value.name != name`; only then is `value.push(name, scope, scope.head)`
called.  Otherwise the namespace is handed to `type.__setattr__` unchanged. -/

inductive MetaSetNsResult where
  | stored (ns : PushNs) (pushed : Bool)
  | conflict (c : BindConflict)
  deriving DecidableEq, Repr

/-- `NamespaceableMeta.__setattr__(cls, name, value)` for a `'.'`-free
`name` and a `Namespace` value.  `clsScope` and `clsHead` are the target
class's registered scope and that scope's head dict. -/
def metaSetattrNamespace (clsScope clsHead : Nat) (ns : PushNs)
    (name : String) : MetaSetNsResult :=
  if ns.name ≠ some name then
    let out := push ns name clsScope clsHead
    match out.err with
    | some c => .conflict c
    | none => .stored out.ns true
  else .stored ns false

/-! ## Class creation (`NamespaceableMeta.__new__` and the older
`_Namespaceable.__new__`) -/

inductive NewResult where
  | created (registered : List Nat)
  | mustInherit
  | pushedFinalize
  deriving DecidableEq, Repr

/-- `NamespaceableMeta.__new__` (current code): finalize the scope — which
requires exactly one overlay left — install the head as the class dict and
register every namespace created in the scope (`namespace.add(cls)`); no
check of the bases is performed.  `_derives` records whether the new class
transitively derives from `Namespaceable`; it is unused, as in the source. -/
def namespaceableMetaNew (overlays : Nat) (_derives : Bool)
    (nss : List Nat) : NewResult :=
  if overlays ≠ 1 then .pushedFinalize
  else .created nss

/-- `_Namespaceable.__new__` (older flat-layout variant): after constructing
the class, reject it unless it derives from `Namespaceable` (checked only
once `_DEFINED` is set), then register the scope's namespaces. -/
def oldNamespaceableNew (defined : Bool) (derives : Bool)
    (nss : List Nat) : NewResult :=
  if defined && !derives then .mustInherit
  else .created nss

/-! ## `Namespace.activate` / `Namespace.deactivate` (namespaces.py)

The activation-relevant part of a bound namespace's state, together with its
scope's overlay stack.  `selfId` is the namespace's own dict id; the scope's
`_dicts` is a list of dict ids with the innermost overlay first, and
`scope.head` is its first element. -/

structure ActNs where
  active : Bool
  needsSetup : Bool
  parent : Option Nat
  deriving DecidableEq, Repr

structure ActScope where
  dicts : List Nat
  finalized : Bool
  deriving DecidableEq, Repr

inductive ActConflict where
  | doubleActivate | reparent | finalizedPush | basalPop
  deriving DecidableEq, Repr

/-- `Namespace.activate`: raise on double activation; when a scope is bound,
validate that the scope's head is the registered parent, mark active, then
`scope.push(self)` (which refuses a finalized scope) and clear `needs_setup`.
The state at the moment each exception is raised is returned alongside it. -/
def activate (selfId : Nat) (scopeBound : Bool) (ns : ActNs) (sc : ActScope) :
    (ActNs × ActScope) × Option ActConflict :=
  if ns.active then ((ns, sc), some .doubleActivate)
  else if scopeBound then
    if sc.dicts.head? ≠ ns.parent then ((ns, sc), some .reparent)
    else
      let ns1 : ActNs := { ns with active := true }
      if sc.finalized then ((ns1, sc), some .finalizedPush)
      else (({ ns1 with needsSetup := false },
             { sc with dicts := selfId :: sc.dicts }), none)
  else ((ns, sc), none)

/-- `Namespace.deactivate`: when bound and active, clear the flag and
`scope.pop_()` (which refuses to pop a basal one-overlay stack). -/
def deactivate (scopeBound : Bool) (ns : ActNs) (sc : ActScope) :
    (ActNs × ActScope) × Option ActConflict :=
  if scopeBound && ns.active then
    let ns1 : ActNs := { ns with active := false }
    if sc.dicts.length == 1 then ((ns1, sc), some .basalPop)
    else ((ns1, { sc with dicts := sc.dicts.tail }), none)
  else ((ns, sc), none)

/-! ## `_NamespaceScope.__getitem__` / `__delitem__` (namespaces.py)

Scope values are either plain objects or `Namespace` objects (which
`wrap` turns into construction-time scope proxies on the way out). -/

inductive SVal where
  | plain (n : Nat)
  | nsMark (id : Nat)
  deriving DecidableEq, Repr

/-- `_NamespaceScope.wrap`: namespaces come back wrapped in a scope proxy. -/
inductive Wrapped where
  | plainW (n : Nat)
  | proxyW (id : Nat)
  deriving DecidableEq, Repr

def wrap : SVal → Wrapped
  | .plain n => .plainW n
  | .nsMark i => .proxyW i

/-- `collections.ChainMap(*dicts)[key]`: first-match-wins over the overlay
stack. -/
def chainLookup : List (List (String × SVal)) → String → Option SVal
  | [], _ => none
  | d :: rest, k =>
      match alookup d k with
      | some v => some v
      | none => chainLookup rest k

/-- `key.rpartition('.')` produces a namespace path iff the key contains a
dot. -/
def isDotted (key : String) : Bool := key.contains '.'

inductive ScopeGetOut where
  | found (w : Wrapped)
  | keyError (k : String)
  | finalizedPath (k : String)
  deriving DecidableEq, Repr

/-- `_NamespaceScope.__getitem__`: after finalization a dotted key descends
through nested namespaces (left abstract here as `finalizedPath`, not needed
for the pre-finalization claims); a plain key reads the head dict.  Before
finalization every key is resolved through the chained overlay stack. -/
def scopeGetitem (finalized : Bool) (dicts : List (List (String × SVal)))
    (key : String) : ScopeGetOut :=
  if finalized then
    if isDotted key then .finalizedPath key
    else
      match alookup (dicts.headD []) key with
      | some v => .found (wrap v)
      | none => .keyError key
  else
    match chainLookup dicts key with
    | some v => .found (wrap v)
    | none => .keyError key

inductive ScopeDelOut where
  | ok (newDicts : List (List (String × SVal)))
  | keyError (k : String)
  | finalizedPath (k : String)
  | emptyScope
  deriving DecidableEq, Repr

/-- `_NamespaceScope.__delitem__`: after finalization a dotted key is deleted
through the namespace tree (`finalizedPath`); otherwise — in particular for
every key before finalization — `del self.head[key]` touches only the
innermost overlay. -/
def scopeDelitem (finalized : Bool) (dicts : List (List (String × SVal)))
    (key : String) : ScopeDelOut :=
  if finalized && isDotted key then .finalizedPath key
  else
    match dicts with
    | [] => .emptyScope
    | d :: rest =>
        match delKey d key with
        | some d' => .ok (d' :: rest)
        | none => .keyError key

/-! ## `Namespace.get_namespace` — the per-target registry (namespaces.py)

For a fixed target, the registry maps path tuples to `Namespace` objects.
Object identity is embedded with numeric ids: `entries` maps a path to the
id of the namespace registered there, `heap` maps each id to the object's
identity fields (`premake(path[-1], parent)`), and `fresh` is the next
unused id.  `parent = none` embeds the fresh `{}` dict used for length-1
paths; `contents` starts empty for premade namespaces. -/

structure NsObj where
  name : String
  parent : Option Nat
  contents : List (String × Nat)
  deriving DecidableEq, Repr

structure RegState where
  entries : List (List String × Nat)
  heap : List (Nat × NsObj)
  fresh : Nat
  deriving DecidableEq, Repr

/-- The path whose last segment is `last` and whose earlier segments are
`restRev` in reverse order (the recursion of `get_namespace` peels `path[-1]`
off, so the embedding recurses on the reversed path). -/
def pathOf (last : String) (restRev : List String) : List String :=
  (last :: restRev).reverse

/-- `namespaces.setdefault(path_, premake(path[-1], parent))`: return the
registered namespace if present, else register a fresh premade one. -/
def setdefaultPremake (reg : RegState) (path : List String) (last : String)
    (parent : Option Nat) : Nat × RegState :=
  match alookup reg.entries path with
  | some i => (i, reg)
  | none =>
      (reg.fresh,
       ⟨(path, reg.fresh) :: reg.entries,
        (reg.fresh, ⟨last, parent, []⟩) :: reg.heap,
        reg.fresh + 1⟩)

/-- `Namespace.get_namespace(target, path)` for a nonempty path, presented
as `last`/`restRev`: return the registered namespace; when absent, compute
the parent (`{}` for a length-1 path, else the recursively obtained parent
namespace) and `setdefault` a premade namespace. -/
def get_namespace_aux : RegState → String → List String → Nat × RegState
  | reg, last, [] =>
      match alookup reg.entries (pathOf last []) with
      | some i => (i, reg)
      | none => setdefaultPremake reg (pathOf last []) last none
  | reg, last, h :: t =>
      match alookup reg.entries (pathOf last (h :: t)) with
      | some i => (i, reg)
      | none =>
          let r := get_namespace_aux reg h t
          setdefaultPremake r.2 (pathOf last (h :: t)) last (some r.1)

/-- `Namespace.get_namespace(target, path)`.  The source never calls this
with an empty path (`Namespace.path` always ends in the namespace's own
name, and Python would recurse forever on an empty tuple); the empty case
returns the state unchanged. -/
def get_namespace (reg : RegState) (path : List String) : Nat × RegState :=
  match path.reverse with
  | [] => (0, reg)
  | last :: restRev => get_namespace_aux reg last restRev

/-- One registry entry is well-formed: its heap object carries the path's
last segment as name, and its parent is `none` for a length-1 path and the
id registered at the parent path otherwise. -/
def entryOK (entries : List (List String × Nat)) (heap : List (Nat × NsObj)) :
    List String × Nat → Bool
  | (path, i) =>
      match path.getLast?, alookup heap i with
      | some last, some obj =>
          (obj.name == last) &&
          (if path.dropLast.isEmpty then obj.parent == none
           else match alookup entries path.dropLast with
             | some pid => obj.parent == some pid
             | none => false)
      | _, _ => false

/-- Registry well-formedness: every entry is well-formed and every id in use
is below `fresh`. -/
def wfReg (reg : RegState) : Bool :=
  reg.entries.all (fun e => entryOK reg.entries reg.heap e && decide (e.2 < reg.fresh)) &&
  reg.heap.all (fun h => decide (h.1 < reg.fresh))

/-! ## Dotted-path access on a class (`NamespaceableMeta.__getattribute__`,
`__setattr__`, `__delattr__` with dotted names)

For a single namespace-bearing class `C` (no bases, not an instance of a
namespaceable metaclass, so `_retarget` is the identity and the chained mro
map of a path is just `C`'s registered namespace there), values are either
plain objects or stored child namespaces; a stored `Namespace` carries its
registered path.  The class's real attribute table is `clsDict`; the
registry maps paths to the corresponding namespace dicts (`get_namespace`
with target `C`; parent auto-vivification is covered by the `RegState`
model and does not affect these lookups). -/

inductive PyVal where
  | plain (n : Nat)
  | nsref (path : List String)
  deriving DecidableEq, Repr

structure ClsState where
  clsDict : List (String × PyVal)
  registry : List (List String × List (String × PyVal))
  deriving DecidableEq, Repr

/-- The chained mro map of path `p` for the single class `C`:
`get_namespace(C, p)` when registered, else the empty chain. -/
def mroMapOf (st : ClsState) (p : List String) : List (String × PyVal) :=
  (alookup st.registry p).getD []

/-- Lookup at a position: `[]` is the class itself (its real attribute
table, consulted by `type.__getattribute__`), a nonempty `acc` is the proxy
over the namespace at path `acc` (instance `None`, so only the mro map is
consulted). -/
def lookupAt (st : ClsState) (acc : List String) (e : String) : Option PyVal :=
  match acc with
  | [] => alookup st.clsDict e
  | _ :: _ => alookup (mroMapOf st acc) e

/-- Result of one attribute step.  A stored child `Namespace` has `__get__`
only (non-data), so the proxy's branch 4 dispatches it into a nested proxy;
a plain value has no hooks and comes back raw (branch 5); a missing name is
an `AttributeError`. -/
inductive Resolved where
  | proxy (p : List String)
  | value (n : Nat)
  | errName (name : String)
  deriving DecidableEq, Repr

def getFrom (st : ClsState) (acc : List String) (e : String) : Resolved :=
  match lookupAt st acc e with
  | some (.nsref p) => .proxy p
  | some (.plain n) => .value n
  | none => .errName e

inductive PathFail where
  | attrError (name : String)
  | tooDeep
  deriving DecidableEq, Repr

inductive GetVal where
  | proxyV (p : List String)
  | valueV (n : Nat)
  deriving DecidableEq, Repr

/-- `NamespaceableMeta.__getattribute__` for the dotted name whose segments
are the second argument, walking from position `acc` (initially the class):
every intermediate result must be a namespace proxy (`__is_proxy` raises the
too-deep `ValueError` otherwise), the final segment may resolve to
anything. -/
def metaGet (st : ClsState) : List String → List String → Except PathFail GetVal
  | _, [] => .error (.attrError "")
  | acc, [last] =>
      match getFrom st acc last with
      | .proxy q => .ok (.proxyV q)
      | .value n => .ok (.valueV n)
      | .errName nm => .error (.attrError nm)
  | acc, e :: e2 :: rest =>
      match getFrom st acc e with
      | .proxy q => metaGet st q (e2 :: rest)
      | .value _ => .error .tooDeep
      | .errName nm => .error (.attrError nm)

/-- `name.rpartition('.')` on a segment list: the leading segments and the
final one. -/
def splitLast : List String → Option (List String × String)
  | [] => none
  | [x] => some ([], x)
  | x :: y :: rest =>
      match splitLast (y :: rest) with
      | some (p, l) => some (x :: p, l)
      | none => none

/-- `_NamespaceProxy.__setattr__` with `instance is None`:
`real_map = dct.get_namespace(owner, dct.path)` (created if absent) and
`real_map[name] = value`. -/
def proxySetC (st : ClsState) (p : List String) (name : String) (n : Nat) :
    ClsState :=
  let m := (alookup st.registry p).getD []
  { st with registry := storeKey st.registry p (storeKey m name (.plain n)) }

/-- `_NamespaceProxy.__delattr__` with `instance is None`:
`ops.delete(real_map, name)`, raising `AttributeError` when missing. -/
def proxyDelC (st : ClsState) (p : List String) (name : String) :
    Except PathFail ClsState :=
  let m := (alookup st.registry p).getD []
  match delKey m name with
  | some m2 => .ok { st with registry := storeKey st.registry p m2 }
  | none => .error (.attrError name)

/-- `NamespaceableMeta.__setattr__` for the dotted name with the given
segments: split on the last dot, resolve the parent to a proxy
(`__is_proxy`), forward the final segment; a plain (dot-free) name goes
straight to `type.__setattr__` on the class dict. -/
def metaSet (st : ClsState) (segs : List String) (n : Nat) :
    Except PathFail ClsState :=
  match splitLast segs with
  | none => .error (.attrError "")
  | some ([], single) =>
      .ok { st with clsDict := storeKey st.clsDict single (.plain n) }
  | some (parent, fin) =>
      match metaGet st [] parent with
      | .ok (.proxyV p) => .ok (proxySetC st p fin n)
      | .ok (.valueV _) => .error .tooDeep
      | .error f => .error f

/-- `NamespaceableMeta.__delattr__`, symmetric to `__setattr__`. -/
def metaDel (st : ClsState) (segs : List String) : Except PathFail ClsState :=
  match splitLast segs with
  | none => .error (.attrError "")
  | some ([], single) =>
      match delKey st.clsDict single with
      | some d => .ok { st with clsDict := d }
      | none => .error (.attrError single)
  | some (parent, fin) =>
      match metaGet st [] parent with
      | .ok (.proxyV p) => proxyDelC st p fin
      | .ok (.valueV _) => .error .tooDeep
      | .error f => .error f

/-- The namespace chain named by `segs` is intact from position `acc`: each
segment resolves to the stored child namespace registered at the extended
path. -/
def wfChain (st : ClsState) (acc : List String) : List String → Bool
  | [] => true
  | e :: rest =>
      match lookupAt st acc e with
      | some (.nsref q) => decide (q = acc ++ [e]) && wfChain st (acc ++ [e]) rest
      | _ => false

/-! ## Instance-level dotted path: chained access `i.outer.….attr` through
`_NamespaceProxy` with a non-None instance

On instances the metaclass's dotted-name handlers do not apply (they
intercept class attribute access only), so a dotted path on an instance is
exercised as chained attribute access through nested proxies: `i.outer`
invokes `Namespace.__get__(i, C)` yielding a proxy with `instance = i`, and
each further segment goes through `_NamespaceProxy.__getattribute__`.  For
an instance of a plain namespace-bearing class `C`, `_retarget` is the
identity (instance is not None) and `issubclass(owner, type)` is false.
`ireg` is the instance's per-instance namespace table
(`get_namespace(instance, path)` for a non-class target); its lazy creation
of empty namespaces is observationally absorbed by the `getD []` default,
and the machinery never writes the instance's own `__dict__`, which is
taken to be empty. -/

structure InstState where
  cls : ClsState
  ireg : List (List String × List (String × PyVal))
  deriving DecidableEq, Repr

/-- The per-instance namespace at path `p` (`get_namespace(instance, p)`,
the `_instance_map` of a proxy over a non-class instance). -/
def iregMapOf (st : InstState) (p : List String) : List (String × PyVal) :=
  (alookup st.ireg p).getD []

/-- `_DescriptorInspector.is_data` on this model's values: neither plain
objects nor `Namespace` instances define `__set__` or `__delete__`. -/
def pyIsData (_v : PyVal) : Bool := false

/-- `ops.get_data` over a dict of this model's values. -/
def pyGetData (m : List (String × PyVal)) (name : String) : Option PyVal :=
  match alookup m name with
  | some v => if pyIsData v then some v else none
  | none => none

/-- Result of one instance-side attribute step.  Branch 1 of the resolution
(data descriptor with get on the mro side) never fires on these values;
branch 2 needs `issubclass(owner, type)`, false here; branch 3 returns the
per-instance stored value raw — a `Namespace` stored in the per-instance
dict would come back as the raw object, not as a proxy; branches 4–5
dispatch a stored child `Namespace` into a nested instance proxy or return
the raw mro-side value. -/
inductive IResolved where
  | proxy (p : List String)
  | value (n : Nat)
  | rawNamespace (q : List String)
  | errName (name : String)
  deriving DecidableEq, Repr

/-- One attribute step from the instance itself (`acc = []`, plain
`object.__getattribute__`: the `Namespace` found in the class dict is a
non-data descriptor, dispatched into an instance proxy) or from an instance
proxy at path `acc` (`_NamespaceProxy.__getattribute__` with
`instance = i`, `owner = C`). -/
def instGetFrom (st : InstState) (acc : List String) (e : String) : IResolved :=
  match acc with
  | [] =>
      match alookup st.cls.clsDict e with
      | some (.nsref p) => .proxy p
      | some (.plain n) => .value n
      | none => .errName e
  | _ :: _ =>
      match alookup (iregMapOf st acc) e, alookup (mroMapOf st.cls acc) e with
      | some (.plain n), _ => .value n
      | some (.nsref q), _ => .rawNamespace q
      | none, some (.nsref q) => .proxy q
      | none, some (.plain n) => .value n
      | none, none => .errName e

/-- How an instance-side chained access fails: an `AttributeError` from the
proxy, or the chain continued on a non-proxy value — ordinary attribute
access on that object, outside the namespace machinery. -/
inductive IFail where
  | attrError (name : String)
  | notProxy
  deriving DecidableEq, Repr

/-- Chained attribute get `i.e₁.….e_k` from position `acc`: intermediate
results must be proxies for the walk to stay inside the namespace system,
the final segment may resolve to anything. -/
def instGet (st : InstState) : List String → List String → Except IFail IResolved
  | _, [] => .error (.attrError "")
  | acc, [last] =>
      match instGetFrom st acc last with
      | .proxy q => .ok (.proxy q)
      | .value n => .ok (.value n)
      | .rawNamespace q => .ok (.rawNamespace q)
      | .errName nm => .error (.attrError nm)
  | acc, e :: e2 :: rest =>
      match instGetFrom st acc e with
      | .proxy q => instGet st q (e2 :: rest)
      | .value _ => .error .notProxy
      | .rawNamespace _ => .error .notProxy
      | .errName nm => .error (.attrError nm)

inductive ISetResult where
  | descrSet (d : PyVal)
  | stored (st : InstState)
  deriving DecidableEq, Repr

/-- `_NamespaceProxy.__setattr__` with `instance = i`: consult the chained
`mro_map` for a data descriptor and dispatch its set, else write into the
per-instance namespace at this path (`_instance_namespace`), created
lazily. -/
def proxySetI (st : InstState) (p : List String) (name : String) (n : Nat) :
    ISetResult :=
  match pyGetData (mroMapOf st.cls p) name with
  | some d => .descrSet d
  | none =>
      let m := storeKey (iregMapOf st p) name (.plain n)
      .stored { st with ireg := storeKey st.ireg p m }

inductive IDelResult where
  | descrDelete (d : PyVal)
  | deleted (st : InstState)
  deriving DecidableEq, Repr

/-- `_NamespaceProxy.__delattr__` with `instance = i`: consult the owner's
own namespace at this path (for the single class this coincides with the
chained map) for a data descriptor and dispatch its delete, else delete
from the per-instance namespace, raising `AttributeError` when missing. -/
def proxyDelI (st : InstState) (p : List String) (name : String) :
    Except IFail IDelResult :=
  match pyGetData (mroMapOf st.cls p) name with
  | some d => .ok (.descrDelete d)
  | none =>
      match delKey (iregMapOf st p) name with
      | some m2 => .ok (.deleted { st with ireg := storeKey st.ireg p m2 })
      | none => .error (.attrError name)

/-- `i.a.….fin = v`: evaluate the parent chain (which must stay inside the
namespace system) and `__setattr__` the final segment on the resulting
instance proxy. -/
def instSetPath (st : InstState) (a : String) (as : List String)
    (fin : String) (n : Nat) : Except IFail ISetResult :=
  match instGet st [] (a :: as) with
  | .ok (.proxy p) => .ok (proxySetI st p fin n)
  | .ok _ => .error .notProxy
  | .error f => .error f

/-- `del i.a.….fin`, symmetric to `instSetPath`. -/
def instDelPath (st : InstState) (a : String) (as : List String)
    (fin : String) : Except IFail IDelResult :=
  match instGet st [] (a :: as) with
  | .ok (.proxy p) => proxyDelI st p fin
  | .ok _ => .error .notProxy
  | .error f => .error f

/-- The namespace chain `segs` is intact from position `acc` for the
instance: each segment steps to the nested instance proxy at the extended
path — in particular the per-instance namespaces do not shadow the chain
segments. -/
def wfChainI (st : InstState) (acc : List String) : List String → Bool
  | [] => true
  | e :: rest =>
      match instGetFrom st acc e with
      | .proxy q => decide (q = acc ++ [e]) && wfChainI st (acc ++ [e]) rest
      | _ => false

theorem alookup_storeKey_self {κ α : Type} [DecidableEq κ]
    (l : List (κ × α)) (k : κ) (v : α) : alookup (storeKey l k v) k = some v := by
  induction l with
  | nil => simp [storeKey, alookup]
  | cons hd tl ih =>
      obtain ⟨k', v'⟩ := hd
      by_cases h : k' = k <;> simp [storeKey, alookup, h, ih]

theorem alookup_storeKey_other {κ α : Type} [DecidableEq κ]
    (l : List (κ × α)) (k k' : κ) (v : α) (h : k ≠ k') :
    alookup (storeKey l k v) k' = alookup l k' := by
  induction l with
  | nil => simp [storeKey, alookup, h]
  | cons hd tl ih =>
      obtain ⟨k₀, v₀⟩ := hd
      by_cases h0 : k₀ = k <;> simp [storeKey, alookup, h0, h, ih]

/-- Storing a fresh key and then deleting it recovers the original dictionary. -/
theorem delKey_storeKey {κ α : Type} [DecidableEq κ]
    (l : List (κ × α)) (k : κ) (v : α) (h : alookup l k = none) :
    delKey (storeKey l k v) k = some l := by
  induction l with
  | nil => simp [storeKey, delKey]
  | cons hd tl ih =>
      obtain ⟨k₀, v₀⟩ := hd
      by_cases h0 : k₀ = k
      · simp [alookup, h0] at h
      · simp only [alookup, if_neg h0] at h
        simp [storeKey, delKey, h0, ih h]

/-- Claim C1, counterexample: for a set-only data descriptor with no get hook
(`__set__` but no `__get__`) found in the mro-side map, the claimed priority
dispatches its get, but `_NamespaceProxy.__getattribute__` requires
`ops.is_data(mro_value) and ops.has_get(mro_value)` and instead falls through
to returning the raw stored value. -/
theorem C1_counterexample :
    proxyGetattribute false none 0 [] [("m", ⟨false, true, false, 5⟩)] "m"
      ≠ claimedGetPriority false none 0 [] [("m", ⟨false, true, false, 5⟩)] "m" := by
  decide

/-- Claim C1 (amended): the result of `_NamespaceProxy.__getattribute__` is
chosen by this priority: if the mro-side map has the name and the value is a
data descriptor *with a get hook*, dispatch its get(instance, owner); else if
the owner is a class of classes and the instance-side map has the name with a
get hook, dispatch its get(None, instance); else if the instance-side map has
the name, return the raw stored value; else if the mro-side map has the name
with a get hook, dispatch its get(instance, owner); else if the mro-side map
has the name, return the raw value; else fail with AttributeError carrying
the name. -/
theorem C1_resolution_priority (ownerIsType : Bool) (inst : Option Nat)
    (owner : Nat) (instanceMap mroMap : List (String × Value)) (name : String) :
    (∀ mv, opsGet mroMap name = some mv → mv.isData = true → mv.hasGet = true →
      proxyGetattribute ownerIsType inst owner instanceMap mroMap name
        = .getDispatch mv inst (some owner)) ∧
    ((opsIsData (opsGet mroMap name) && opsHasGet (opsGet mroMap name)) = false →
      ownerIsType = true →
      ∀ iv, opsGet instanceMap name = some iv → iv.hasGet = true →
      proxyGetattribute ownerIsType inst owner instanceMap mroMap name
        = .getDispatch iv none inst) ∧
    ((opsIsData (opsGet mroMap name) && opsHasGet (opsGet mroMap name)) = false →
      (ownerIsType && opsHasGet (opsGet instanceMap name)) = false →
      ∀ iv, opsGet instanceMap name = some iv →
      proxyGetattribute ownerIsType inst owner instanceMap mroMap name
        = .rawValue iv) ∧
    ((opsIsData (opsGet mroMap name) && opsHasGet (opsGet mroMap name)) = false →
      opsGet instanceMap name = none →
      ∀ mv, opsGet mroMap name = some mv → mv.hasGet = true →
      proxyGetattribute ownerIsType inst owner instanceMap mroMap name
        = .getDispatch mv inst (some owner)) ∧
    (opsGet instanceMap name = none →
      ∀ mv, opsGet mroMap name = some mv → mv.hasGet = false →
      proxyGetattribute ownerIsType inst owner instanceMap mroMap name
        = .rawValue mv) ∧
    (opsGet mroMap name = none → opsGet instanceMap name = none →
      proxyGetattribute ownerIsType inst owner instanceMap mroMap name
        = .attributeError name) := by
  refine ⟨?_, ?_, ?_, ?_, ?_, ?_⟩
  · intro mv hm hd hg
    cases hI : opsGet instanceMap name <;>
      simp [proxyGetattribute, hm, hI, hd, hg]
  · intro hnd hot iv hi hg
    cases hM : opsGet mroMap name with
    | none => simp [proxyGetattribute, hM, hi, hot, hg]
    | some mv =>
        rw [hM] at hnd
        simp only [opsIsData, opsHasGet] at hnd
        simp [proxyGetattribute, hM, hi, hnd, hot, hg]
  · intro hnd hob iv hi
    cases hM : opsGet mroMap name with
    | none =>
        rw [hi] at hob
        simp only [opsHasGet] at hob
        simp [proxyGetattribute, hM, hi, hob]
    | some mv =>
        rw [hM] at hnd
        rw [hi] at hob
        simp only [opsIsData, opsHasGet] at hnd hob
        simp [proxyGetattribute, hM, hi, hnd, hob]
  · intro hnd hinone mv hm hg
    rw [hm] at hnd
    simp only [opsIsData, opsHasGet] at hnd
    simp [proxyGetattribute, hm, hinone, hnd, hg]
  · intro hinone mv hm hg
    simp [proxyGetattribute, hm, hinone, hg, Value.isData]
  · intro hm hi
    simp [proxyGetattribute, hm, hi]

/-- Claim C1 witness: the amended priority evaluated at a concrete input — a
data descriptor with a get hook on the mro side is dispatched even when the
instance map stores an override. -/
theorem C1_resolution_priority_witness :
    proxyGetattribute false (some 3) 1 [("m", plainValue 9)]
        [("m", ⟨true, true, false, 4⟩)] "m"
      = .getDispatch ⟨true, true, false, 4⟩ (some 3) (some 1) :=
  (C1_resolution_priority false (some 3) 1 [("m", plainValue 9)]
      [("m", ⟨true, true, false, 4⟩)] "m").1 ⟨true, true, false, 4⟩ rfl rfl rfl

/-- Claim C2: for a class whose namespace maps `n` to a non-data member `f`
(the class's own map also being the chained mro map, there being a single
class), setting `i.ns.n = v` stores into the instance namespace, a subsequent
read returns the raw `v` (instance storage outranks the non-data descriptor),
deleting `i.ns.n` removes exactly that stored entry, and a further read
resolves to the class-level member again, dispatching its get hook when it
has one. -/
theorem C2_nondata_set_del_roundtrip (inst owner : Nat) (n : String)
    (f v : Value) (cm instMap : List (String × Value))
    (hf : opsGet cm n = some f) (hnd : f.isData = false)
    (hfresh : opsGet instMap n = none) :
    proxySetattr inst cm instMap n v = .stored (storeKey instMap n v) ∧
    proxyGetattribute false (some inst) owner (storeKey instMap n v) cm n
      = .rawValue v ∧
    proxyDelattr inst cm (storeKey instMap n v) n = .deleted instMap ∧
    proxyGetattribute false (some inst) owner instMap cm n
      = (if f.hasGet then .getDispatch f (some inst) (some owner)
         else .rawValue f) := by
  have hstore : opsGet (storeKey instMap n v) n = some v :=
    alookup_storeKey_self instMap n v
  refine ⟨?_, ?_, ?_, ?_⟩
  · simp [proxySetattr, opsGetData, hf, hnd]
  · simp [proxyGetattribute, hf, hstore, hnd]
  · simp [proxyDelattr, opsGetData, hf, hnd, delKey_storeKey instMap n v hfresh]
  · cases hg : f.hasGet <;> simp [proxyGetattribute, hf, hfresh, hnd, hg]

/-- Claim C2 witness: a plain function member, overridden on the instance
with a plain value, then deleted, at concrete inputs. -/
theorem C2_nondata_set_del_roundtrip_witness :
    proxySetattr 0 [("m", functionValue 7)] [] "m" (plainValue 3)
        = .stored [("m", plainValue 3)] ∧
    proxyGetattribute false (some 0) 1 [("m", plainValue 3)]
        [("m", functionValue 7)] "m" = .rawValue (plainValue 3) ∧
    proxyDelattr 0 [("m", functionValue 7)] [("m", plainValue 3)] "m"
        = .deleted [] ∧
    proxyGetattribute false (some 0) 1 [] [("m", functionValue 7)] "m"
        = (if (functionValue 7).hasGet
           then .getDispatch (functionValue 7) (some 0) (some 1)
           else .rawValue (functionValue 7)) :=
  C2_nondata_set_del_roundtrip 0 1 "m" (functionValue 7) (plainValue 3)
    [("m", functionValue 7)] [] rfl rfl rfl

/-- Claim C3, counterexample: a data descriptor visible in the chained mro
map (inherited from a base class) but absent from the owner's own namespace
at this path.  `__setattr__` dispatches the descriptor's set through the
chained map, but `__delattr__` consults only the owner's own namespace
(`real_map`), finds nothing, and raises AttributeError instead of dispatching
delete, contradicting the claimed set/delete symmetry. -/
theorem C3_counterexample :
    proxySetattr 0 [("m", ⟨true, true, true, 5⟩)] [] "m" (plainValue 1)
        = .descrSet ⟨true, true, true, 5⟩ 0 (plainValue 1) ∧
    specDelattr 0 [("m", ⟨true, true, true, 5⟩)] [] "m"
        = .descrDelete ⟨true, true, true, 5⟩ 0 ∧
    proxyDelattr 0 [] [] "m" = .attributeError "m" ∧
    proxyDelattr 0 [] [] "m" ≠ specDelattr 0 [("m", ⟨true, true, true, 5⟩)] [] "m" := by
  refine ⟨by decide, by decide, by decide, by decide⟩

/-- Claim C3 (amended): attribute delete with a non-None instance consults
the owner class's *own* namespace at this path (not the chained mro map that
set uses) for a data descriptor matching the name, dispatching its
delete(instance) if found; otherwise it deletes the name from the
per-instance namespace (after which the name no longer resolves there), and
deleting a name absent from both sources fails with AttributeError carrying
the name. -/
theorem C3_delete_uses_own_map (inst : Nat)
    (realMap instMap : List (String × Value)) (name : String) :
    (∀ d, opsGetData realMap name = some d →
      proxyDelattr inst realMap instMap name = .descrDelete d inst) ∧
    (opsGetData realMap name = none →
      ∀ m, delKey instMap name = some m →
      proxyDelattr inst realMap instMap name = .deleted m) ∧
    (opsGetData realMap name = none → delKey instMap name = none →
      proxyDelattr inst realMap instMap name = .attributeError name) := by
  refine ⟨?_, ?_, ?_⟩
  · intro d hd
    simp [proxyDelattr, hd]
  · intro hd m hm
    simp [proxyDelattr, hd, hm]
  · intro hd hm
    simp [proxyDelattr, hd, hm]

/-- Claim C3 witness: the three delete outcomes at concrete inputs. -/
theorem C3_delete_uses_own_map_witness :
    proxyDelattr 2 [("m", ⟨true, true, false, 8⟩)] [] "m"
        = .descrDelete ⟨true, true, false, 8⟩ 2 ∧
    proxyDelattr 2 [] [("m", plainValue 4)] "m" = .deleted [] ∧
    proxyDelattr 2 [] [] "m" = .attributeError "m" :=
  ⟨(C3_delete_uses_own_map 2 [("m", ⟨true, true, false, 8⟩)] [] "m").1
      ⟨true, true, false, 8⟩ rfl,
   (C3_delete_uses_own_map 2 [] [("m", plainValue 4)] "m").2.1 rfl [] rfl,
   (C3_delete_uses_own_map 2 [] [] "m").2.2 rfl rfl⟩

/-- Claim C8: pushing an unbound namespace binds all three identity fields;
pushing an already-bound namespace with the identical triple succeeds and
changes nothing; pushing it with any differing component raises the
corresponding conflict — rename when the name differs, else reuse when the
scope differs, else reparent — and leaves all three identity fields exactly
as they were, with nothing appended and no activation. -/
theorem C8_push_atomic (ns : PushNs) (n₀ : String) (s₀ p₀ : Nat)
    (hn : ns.name = some n₀) (hs : ns.scope = some s₀) (hp : ns.parent = some p₀)
    (n : String) (s p : Nat) :
    (∀ needsSetup : Bool, push ⟨none, none, none, needsSetup⟩ n s p
        = ⟨⟨some n, some s, some p, needsSetup⟩, none, true, needsSetup⟩) ∧
    push ns n₀ s₀ p₀ = ⟨ns, none, true, ns.needsSetup⟩ ∧
    (¬(n = n₀ ∧ s = s₀ ∧ p = p₀) →
      push ns n s p
        = ⟨ns, some (if n ≠ n₀ then .rename
                     else if s ≠ s₀ then .reuse else .reparent),
            false, false⟩) := by
  obtain ⟨nsn, nss, nsp, nst⟩ := ns
  cases hn; cases hs; cases hp
  refine ⟨?_, ?_, ?_⟩
  · intro needsSetup
    simp [push, set_if_none]
  · simp [push, set_if_none]
  · intro hne
    by_cases h1 : n = n₀
    · by_cases h2 : s = s₀
      · have h3 : p ≠ p₀ := by
          intro h3; exact hne ⟨h1, h2, h3⟩
        subst h1; subst h2
        simp [push, set_if_none, h3, Ne.symm h3]
      · subst h1
        simp [push, set_if_none, h2, Ne.symm h2]
    · simp [push, set_if_none, h1, Ne.symm h1]

/-- Claim C8 witness: a bound namespace pushed with a different parent id is
rejected with a reparent conflict and left unchanged. -/
theorem C8_push_atomic_witness :
    push ⟨some "ns", some 1, some 2, false⟩ "ns" 1 3
      = ⟨⟨some "ns", some 1, some 2, false⟩, some .reparent, false, false⟩ :=
  ((C8_push_atomic ⟨some "ns", some 1, some 2, false⟩ "ns" 1 2 rfl rfl rfl
      "ns" 1 3).2.2 (by simp))

/-- Claim C6, counterexample: a namespace already bound under class A (name
"ns", scope 0, parent 5), assigned by plain `ClassB.ns = ns` onto a class
whose scope is 1 — the same object under its own bound attribute name.  The
guard `value.name != name` is false, so no push and no validation happen and
the namespace is silently stored on ClassB, with no conflict raised. -/
theorem C6_counterexample :
    metaSetattrNamespace 1 10 ⟨some "ns", some 0, some 5, false⟩ "ns"
      = .stored ⟨some "ns", some 0, some 5, false⟩ false := by
  decide

/-- Claim C6 (amended): for a namespace already bound under ClassA, the plain
assignment `ClassB.ns2 = ns` raises a rename conflict whenever the attribute
name differs from the namespace's bound name, leaving the binding unchanged;
when the attribute name equals the bound name, the namespace is silently
stored onto ClassB with no conflict check of its scope or parent. -/
theorem C6_rebind_conflict (ns : PushNs) (n₀ : String) (s₀ p₀ : Nat)
    (hn : ns.name = some n₀) (hs : ns.scope = some s₀) (hp : ns.parent = some p₀)
    (clsScope clsHead : Nat) (name : String) :
    (name = n₀ → metaSetattrNamespace clsScope clsHead ns name = .stored ns false) ∧
    (name ≠ n₀ → metaSetattrNamespace clsScope clsHead ns name = .conflict .rename) := by
  obtain ⟨nsn, nss, nsp, nst⟩ := ns
  cases hn; cases hs; cases hp
  constructor
  · intro h; subst h
    simp [metaSetattrNamespace]
  · intro h
    simp [metaSetattrNamespace, push, set_if_none, Ne.symm h]

/-- Claim C6 witness: assigning a bound namespace under a different attribute
name raises the rename conflict. -/
theorem C6_rebind_conflict_witness :
    metaSetattrNamespace 1 10 ⟨some "ns", some 0, some 5, false⟩ "other"
      = .conflict .rename :=
  (C6_rebind_conflict ⟨some "ns", some 0, some 5, false⟩ "ns" 0 5 rfl rfl rfl
      1 10 "other").2 (by decide)

/-- Claim C7, counterexample: creating a class through the current
`NamespaceableMeta` whose bases do not include `Namespaceable` succeeds —
the class is created and its namespaces registered, and no MustInherit
condition is raised. -/
theorem C7_counterexample :
    namespaceableMetaNew 1 false [] = .created [] ∧
    namespaceableMetaNew 1 false [] ≠ .mustInherit := by
  decide

/-- Claim C7 (amended): the current `NamespaceableMeta.__new__` performs no
inheritance check — class creation succeeds for any bases whenever the scope
has exactly one overlay left, and fails only on an unfinalizable (pushed)
scope; the MustInherit rejection exists only in the older `_Namespaceable`
metaclass variant, which (once `Namespaceable` is defined) rejects exactly
the classes that do not derive from it. -/
theorem C7_no_inherit_check (derives : Bool) (nss : List Nat) :
    namespaceableMetaNew 1 derives nss = .created nss ∧
    (∀ overlays, overlays ≠ 1 →
      namespaceableMetaNew overlays derives nss = .pushedFinalize) ∧
    oldNamespaceableNew true derives nss
      = (if derives then .created nss else .mustInherit) := by
  refine ⟨by simp [namespaceableMetaNew], ?_, ?_⟩
  · intro overlays h
    simp [namespaceableMetaNew, h]
  · cases derives <;> simp [oldNamespaceableNew]

/-- Claim C7 witness: a deriving class is created by both variants; a
non-deriving class is created by the current metaclass. -/
theorem C7_no_inherit_check_witness :
    namespaceableMetaNew 1 true [3] = .created [3] ∧
    oldNamespaceableNew true true [3] = (if true then .created [3] else .mustInherit) :=
  ⟨(C7_no_inherit_check true [3]).1, (C7_no_inherit_check true [3]).2.2⟩

/-- Claim C9: for a bound namespace over an unfinalized scope whose overlay
stack is `d :: rest`: activation of an already-active namespace fails with
the double-activate conflict and changes nothing; activation when the
scope's top overlay is not the registered parent fails with the reparent
conflict and changes nothing; otherwise activation pushes the namespace as
the new top overlay and marks it active.  A successful activation followed
immediately by another activation fails with the double-activate conflict
(never active twice without an intervening deactivation), and after
deactivating, the namespace is back over the original stack with its parent
unchanged and can be activated again successfully — any number of times,
since one activate/deactivate cycle is idempotent on the state. -/
theorem C9_activate_protocol (selfId : Nat) (ns : ActNs) (sc : ActScope)
    (d : Nat) (rest : List Nat)
    (hdicts : sc.dicts = d :: rest) (hfin : sc.finalized = false) :
    (ns.active = true →
      activate selfId true ns sc = ((ns, sc), some .doubleActivate)) ∧
    (ns.active = false → some d ≠ ns.parent →
      activate selfId true ns sc = ((ns, sc), some .reparent)) ∧
    (ns.active = false → ns.parent = some d →
      activate selfId true ns sc
        = ((⟨true, false, some d⟩, ⟨selfId :: d :: rest, false⟩), none)) ∧
    (ns.active = false → ns.parent = some d →
      activate selfId true ⟨true, false, some d⟩ ⟨selfId :: d :: rest, false⟩
        = ((⟨true, false, some d⟩, ⟨selfId :: d :: rest, false⟩),
           some .doubleActivate)) ∧
    (deactivate true ⟨true, false, some d⟩ ⟨selfId :: d :: rest, false⟩
        = ((⟨false, false, some d⟩, ⟨d :: rest, false⟩), none)) ∧
    (activate selfId true ⟨false, false, some d⟩ ⟨d :: rest, false⟩
        = ((⟨true, false, some d⟩, ⟨selfId :: d :: rest, false⟩), none)) := by
  obtain ⟨nsa, nst, nsp⟩ := ns
  obtain ⟨dicts, fin⟩ := sc
  cases hdicts; cases hfin
  refine ⟨?_, ?_, ?_, ?_, ?_, ?_⟩
  · intro ha; cases ha
    simp [activate]
  · intro ha hne; cases ha
    simp [activate, hne]
  · intro ha hp; cases ha; cases hp
    simp [activate]
  · intro ha hp; cases ha; cases hp
    simp [activate]
  · simp [deactivate]
  · simp [activate]

/-- Claim C9 witness: the full activation protocol at concrete state — an
inactive namespace with parent dict 7 over stack `[7, 3]`. -/
theorem C9_activate_protocol_witness :
    (activate 9 true ⟨false, true, some 7⟩ ⟨[7, 3], false⟩
        = ((⟨true, false, some 7⟩, ⟨[9, 7, 3], false⟩), none)) ∧
    (activate 9 true ⟨true, false, some 7⟩ ⟨[9, 7, 3], false⟩
        = ((⟨true, false, some 7⟩, ⟨[9, 7, 3], false⟩), some .doubleActivate)) ∧
    (deactivate true ⟨true, false, some 7⟩ ⟨[9, 7, 3], false⟩
        = ((⟨false, false, some 7⟩, ⟨[7, 3], false⟩), none)) ∧
    (activate 9 true ⟨false, false, some 7⟩ ⟨[7, 3], false⟩
        = ((⟨true, false, some 7⟩, ⟨[9, 7, 3], false⟩), none)) :=
  have h := C9_activate_protocol 9 ⟨false, true, some 7⟩ ⟨[7, 3], false⟩ 7 [3]
      rfl rfl
  ⟨h.2.2.1 rfl rfl, h.2.2.2.1 rfl rfl, h.2.2.2.2.1, h.2.2.2.2.2⟩

/-- Claim C10: before finalization, deleting a key that is absent from the
top overlay fails with a key error — leaving every overlay unchanged — even
when the key is present in an outer overlay (so that a get of the same key
succeeds through the chained view). -/
theorem C10_delete_top_overlay_only (d : List (String × SVal))
    (rest : List (List (String × SVal))) (key : String) (v : SVal)
    (htop : alookup d key = none) (houter : chainLookup rest key = some v) :
    scopeDelitem false (d :: rest) key = .keyError key ∧
    scopeGetitem false (d :: rest) key = .found (wrap v) := by
  constructor
  · have hdel : delKey d key = none := by
      induction d with
      | nil => simp [delKey]
      | cons hd tl ih =>
          obtain ⟨k₀, v₀⟩ := hd
          by_cases h0 : k₀ = key
          · simp [alookup, h0] at htop
          · simp only [alookup, if_neg h0] at htop
            simp [delKey, h0, ih htop]
    simp [scopeDelitem, hdel]
  · simp [scopeGetitem, chainLookup, htop, houter]

/-- Claim C10 witness: key `a` lives only in the outer overlay; the top
overlay holds `b`; delete fails while get succeeds. -/
theorem C10_delete_top_overlay_only_witness :
    scopeDelitem false [[("b", .plain 1)], [("a", .plain 2)]] "a"
        = .keyError "a" ∧
    scopeGetitem false [[("b", .plain 1)], [("a", .plain 2)]] "a"
        = .found (wrap (.plain 2)) :=
  C10_delete_top_overlay_only [("b", .plain 1)] [[("a", .plain 2)]] "a"
    (.plain 2) rfl rfl

theorem alookup_mem {κ α : Type} [DecidableEq κ] {l : List (κ × α)} {k : κ}
    {v : α} (h : alookup l k = some v) : (k, v) ∈ l := by
  induction l with
  | nil => simp [alookup] at h
  | cons hd tl ih =>
      obtain ⟨k', v'⟩ := hd
      by_cases h0 : k' = k
      · subst h0
        simp only [alookup, if_true, eq_self_iff_true, Option.some.injEq] at h
        subst h
        exact List.mem_cons_self _ _
      · simp only [alookup, if_neg h0] at h
        exact List.mem_cons_of_mem _ (ih h)

theorem alookup_cons_ne {κ α : Type} [DecidableEq κ] (l : List (κ × α))
    (k k' : κ) (v : α) (h : k ≠ k') :
    alookup ((k, v) :: l) k' = alookup l k' := by
  simp [alookup, h]

theorem entryOK_iff (entries : List (List String × Nat)) (heap : List (Nat × NsObj))
    (p : List String) (i : Nat) :
    entryOK entries heap (p, i) = true ↔
    ∃ last obj, p.getLast? = some last ∧ alookup heap i = some obj ∧
      obj.name = last ∧
      ((p.dropLast = [] ∧ obj.parent = none) ∨
       (p.dropLast ≠ [] ∧ ∃ pid,
          alookup entries p.dropLast = some pid ∧ obj.parent = some pid)) := by
  cases hl : p.getLast? with
  | none => simp [entryOK, hl]
  | some last =>
      cases ho : alookup heap i with
      | none => simp [entryOK, hl, ho]
      | some obj =>
          by_cases hd : p.dropLast = []
          · simp [entryOK, hl, ho, hd, List.isEmpty_iff]
          · cases hp : alookup entries p.dropLast with
            | none => simp [entryOK, hl, ho, hd, hp, List.isEmpty_iff]
            | some pid => simp [entryOK, hl, ho, hd, hp, List.isEmpty_iff]

theorem wfReg_iff (reg : RegState) :
    wfReg reg = true ↔
    ((∀ e ∈ reg.entries,
        entryOK reg.entries reg.heap e = true ∧ e.2 < reg.fresh) ∧
     (∀ h ∈ reg.heap, h.1 < reg.fresh)) := by
  simp [wfReg, List.all_eq_true, Bool.and_eq_true, decide_eq_true_iff]

theorem wf_entry {reg : RegState} (hwf : wfReg reg = true) {p : List String}
    {i : Nat} (h : alookup reg.entries p = some i) :
    entryOK reg.entries reg.heap (p, i) = true ∧ i < reg.fresh :=
  ((wfReg_iff reg).1 hwf).1 (p, i) (alookup_mem h)

theorem wf_heap_id {reg : RegState} (hwf : wfReg reg = true) {j : Nat}
    {obj : NsObj} (h : alookup reg.heap j = some obj) : j < reg.fresh :=
  ((wfReg_iff reg).1 hwf).2 (j, obj) (alookup_mem h)

theorem setdefault_lookup_self (reg : RegState) (path : List String)
    (last : String) (parent : Option Nat) :
    alookup (setdefaultPremake reg path last parent).2.entries path
      = some (setdefaultPremake reg path last parent).1 := by
  cases h : alookup reg.entries path <;> simp [setdefaultPremake, h, alookup]

theorem setdefault_entries_mono (reg : RegState) (path : List String)
    (last : String) (parent : Option Nat) {p : List String} {i : Nat}
    (h : alookup reg.entries p = some i) :
    alookup (setdefaultPremake reg path last parent).2.entries p = some i := by
  cases h0 : alookup reg.entries path with
  | some j => simpa [setdefaultPremake, h0] using h
  | none =>
      have hne : path ≠ p := by
        rintro rfl; rw [h] at h0; cases h0
      simpa [setdefaultPremake, h0, alookup_cons_ne _ _ _ _ hne] using h

theorem setdefault_heap_mono (reg : RegState) (path : List String)
    (last : String) (parent : Option Nat) {j : Nat} {obj : NsObj}
    (hj : j < reg.fresh) (h : alookup reg.heap j = some obj) :
    alookup (setdefaultPremake reg path last parent).2.heap j = some obj := by
  cases h0 : alookup reg.entries path with
  | some k => simpa [setdefaultPremake, h0] using h
  | none =>
      have hne : reg.fresh ≠ j := by omega
      simpa [setdefaultPremake, h0, alookup_cons_ne _ _ _ _ hne] using h

theorem setdefault_fresh_le (reg : RegState) (path : List String)
    (last : String) (parent : Option Nat) :
    reg.fresh ≤ (setdefaultPremake reg path last parent).2.fresh := by
  cases h : alookup reg.entries path <;> simp [setdefaultPremake, h]

theorem setdefault_id_lt (reg : RegState) (path : List String) (last : String)
    (parent : Option Nat)
    (hb : ∀ p i, alookup reg.entries p = some i → i < reg.fresh) :
    (setdefaultPremake reg path last parent).1
      < (setdefaultPremake reg path last parent).2.fresh := by
  cases h : alookup reg.entries path with
  | some i => simpa [setdefaultPremake, h] using hb _ _ h
  | none => simp [setdefaultPremake, h]

theorem setdefault_new_entry (reg : RegState) (path : List String)
    (last : String) (parent : Option Nat) {p : List String} {i : Nat}
    (hfin : alookup (setdefaultPremake reg path last parent).2.entries p = some i)
    (horig : alookup reg.entries p = none) :
    ∃ obj, alookup (setdefaultPremake reg path last parent).2.heap i = some obj ∧
      obj.contents = [] := by
  cases h0 : alookup reg.entries path with
  | some j =>
      rw [setdefaultPremake] at hfin
      simp only [h0] at hfin
      rw [hfin] at horig; cases horig
  | none =>
      rw [setdefaultPremake] at hfin ⊢
      simp only [h0] at hfin ⊢
      by_cases hp : path = p
      · subst hp
        simp only [alookup, if_true, eq_self_iff_true, Option.some.injEq] at hfin
        subst hfin
        exact ⟨⟨last, parent, []⟩, by simp [alookup], rfl⟩
      · rw [alookup_cons_ne _ _ _ _ hp] at hfin
        rw [hfin] at horig; cases horig

theorem path_ne_dropLast {path : List String} (h : path ≠ []) :
    path ≠ path.dropLast := by
  intro hc
  have h1 : path.length = path.dropLast.length := by rw [← hc]
  rw [List.length_dropLast] at h1
  have h2 : 0 < path.length := List.length_pos.2 h
  omega

theorem wfReg_setdefault (reg : RegState) (path : List String) (last : String)
    (parent : Option Nat)
    (hwf : wfReg reg = true)
    (hlast : path.getLast? = some last)
    (hpar1 : path.dropLast = [] → parent = none)
    (hpar2 : path.dropLast ≠ [] → ∃ pid, parent = some pid ∧
        alookup reg.entries path.dropLast = some pid) :
    wfReg (setdefaultPremake reg path last parent).2 = true := by
  cases h0 : alookup reg.entries path with
  | some i => simpa [setdefaultPremake, h0] using hwf
  | none =>
      have hpne : path ≠ [] := by
        intro h; rw [h] at hlast; cases hlast
      obtain ⟨hents, hheap⟩ := (wfReg_iff reg).1 hwf
      simp only [setdefaultPremake, h0]
      apply (wfReg_iff _).2
      refine ⟨?_, ?_⟩
      · intro e he
        simp only [List.mem_cons] at he
        rcases he with rfl | he
        · refine ⟨?_, by simp⟩
          apply (entryOK_iff _ _ _ _).2
          refine ⟨last, ⟨last, parent, []⟩, hlast, by simp [alookup], rfl, ?_⟩
          by_cases hd : path.dropLast = []
          · exact Or.inl ⟨hd, by rw [hpar1 hd]⟩
          · obtain ⟨pid, hp1, hp2⟩ := hpar2 hd
            refine Or.inr ⟨hd, pid, ?_, hp1⟩
            rw [alookup_cons_ne _ _ _ _ (path_ne_dropLast hpne)]
            exact hp2
        · obtain ⟨hok, hlt⟩ := hents e he
          obtain ⟨p, i⟩ := e
          refine ⟨?_, by simp; omega⟩
          obtain ⟨l₂, obj₂, hl₂, ho₂, hn₂, hrest⟩ := (entryOK_iff _ _ p i).1 hok
          apply (entryOK_iff _ _ _ _).2
          refine ⟨l₂, obj₂, hl₂, ?_, hn₂, ?_⟩
          · have hne : reg.fresh ≠ i := by simp at hlt; omega
            rw [alookup_cons_ne _ _ _ _ hne]
            exact ho₂
          · rcases hrest with ⟨hd, hpn⟩ | ⟨hd, pid, hpe, hpp⟩
            · exact Or.inl ⟨hd, hpn⟩
            · refine Or.inr ⟨hd, pid, ?_, hpp⟩
              have hne : path ≠ p.dropLast := by
                intro hc; rw [← hc] at hpe; rw [hpe] at h0; cases h0
              rw [alookup_cons_ne _ _ _ _ hne]
              exact hpe
      · intro hp hmem
        simp only [List.mem_cons] at hmem
        rcases hmem with rfl | hmem
        · simp
        · have := hheap hp hmem; simp at this ⊢; omega

theorem pathOf_getLast (last : String) (restRev : List String) :
    (pathOf last restRev).getLast? = some last := by
  simp [pathOf, List.reverse_cons, List.getLast?_concat]

theorem pathOf_dropLast (last : String) (restRev : List String) :
    (pathOf last restRev).dropLast = restRev.reverse := by
  simp [pathOf, List.reverse_cons, List.dropLast_concat]

theorem get_namespace_aux_spec (reg : RegState) (hwf : wfReg reg = true) :
    ∀ (restRev : List String) (last : String),
    wfReg (get_namespace_aux reg last restRev).2 = true ∧
    alookup (get_namespace_aux reg last restRev).2.entries (pathOf last restRev)
      = some (get_namespace_aux reg last restRev).1 ∧
    (∀ p i, alookup reg.entries p = some i →
      alookup (get_namespace_aux reg last restRev).2.entries p = some i) ∧
    (∀ j obj, alookup reg.heap j = some obj →
      alookup (get_namespace_aux reg last restRev).2.heap j = some obj) ∧
    (∀ p i, alookup (get_namespace_aux reg last restRev).2.entries p = some i →
      alookup reg.entries p = none →
      ∃ obj, alookup (get_namespace_aux reg last restRev).2.heap i = some obj ∧
        obj.contents = []) := by
  intro restRev
  induction restRev with
  | nil =>
      intro last
      cases h0 : alookup reg.entries (pathOf last []) with
      | some i =>
          simp only [get_namespace_aux, h0]
          refine ⟨hwf, trivial, fun p i h => h, fun j obj h => h, ?_⟩
          intro p i h1 h2
          rw [h1] at h2; cases h2
      | none =>
          simp only [get_namespace_aux, h0]
          refine ⟨?_, setdefault_lookup_self _ _ _ _,
            fun p i h => setdefault_entries_mono _ _ _ _ h,
            fun j obj h => setdefault_heap_mono _ _ _ _ (wf_heap_id hwf h) h,
            fun p i h1 h2 => setdefault_new_entry _ _ _ _ h1 h2⟩
          apply wfReg_setdefault reg _ last none hwf (pathOf_getLast last [])
          · intro _; rfl
          · intro hd
            rw [pathOf_dropLast] at hd
            simp at hd
  | cons h t ih =>
      intro last
      cases h0 : alookup reg.entries (pathOf last (h :: t)) with
      | some i =>
          simp only [get_namespace_aux, h0]
          refine ⟨hwf, trivial, fun p i h => h, fun j obj h => h, ?_⟩
          intro p i h1 h2
          rw [h1] at h2; cases h2
      | none =>
          obtain ⟨iwf, iself, imono, iheap, inew⟩ := ih h
          simp only [get_namespace_aux, h0]
          set r := get_namespace_aux reg h t with hr
          refine ⟨?_, setdefault_lookup_self _ _ _ _,
            fun p i hp => setdefault_entries_mono _ _ _ _ (imono p i hp),
            fun j obj hj =>
              setdefault_heap_mono _ _ _ _ (wf_heap_id iwf (iheap j obj hj))
                (iheap j obj hj), ?_⟩
          · apply wfReg_setdefault r.2 _ last (some r.1) iwf
              (pathOf_getLast last (h :: t))
            · intro hd
              rw [pathOf_dropLast] at hd
              simp at hd
            · intro _
              refine ⟨r.1, rfl, ?_⟩
              rw [pathOf_dropLast]
              exact iself
          · intro p i h1 h2
            cases h3 : alookup r.2.entries p with
            | some i' =>
                have h4 := setdefault_entries_mono r.2 (pathOf last (h :: t))
                    last (some r.1) h3
                rw [h1] at h4
                injection h4 with h4
                subst h4
                obtain ⟨obj, ho, hc⟩ := inew p i h3 h2
                exact ⟨obj, setdefault_heap_mono _ _ _ _ (wf_heap_id iwf ho) ho, hc⟩
            | none => exact setdefault_new_entry _ _ _ _ h1 h3

theorem get_namespace_aux_of_present (reg : RegState) (last : String)
    (restRev : List String) {i : Nat}
    (h : alookup reg.entries (pathOf last restRev) = some i) :
    get_namespace_aux reg last restRev = (i, reg) := by
  cases restRev <;> simp [get_namespace_aux, h]

theorem isPrefix_dropLast_of_ne {q p : List String} (hq : q <+: p) (hne : q ≠ p) :
    q <+: p.dropLast := by
  obtain ⟨r, hr⟩ := hq
  cases r with
  | nil => simp at hr; exact absurd hr hne
  | cons b r' =>
      rw [← hr, List.dropLast_append_cons]
      exact ⟨(b :: r').dropLast, rfl⟩

theorem wf_prefix_present (reg : RegState) (hwf : wfReg reg = true) :
    ∀ (n : Nat) (p : List String) (i : Nat), p.length ≤ n →
    alookup reg.entries p = some i →
    ∀ q, q ≠ [] → q <+: p → (alookup reg.entries q).isSome = true := by
  intro n
  induction n with
  | zero =>
      intro p i hlen h q hq hpre
      have hp : p = [] := List.length_eq_zero.1 (Nat.le_zero.1 hlen)
      subst hp
      have := (wf_entry hwf h).1
      rw [entryOK_iff] at this
      obtain ⟨last, obj, hl, -⟩ := this
      cases hl
  | succ n ih =>
      intro p i hlen h q hq hpre
      by_cases hqp : q = p
      · subst hqp; rw [h]; rfl
      · have hok := (wf_entry hwf h).1
        rw [entryOK_iff] at hok
        obtain ⟨last, obj, hl, ho, hn, hrest⟩ := hok
        have hpne : p ≠ [] := by
          intro hcontra; rw [hcontra] at hl; cases hl
        have hqd : q <+: p.dropLast := isPrefix_dropLast_of_ne hpre hqp
        rcases hrest with ⟨hd, -⟩ | ⟨hd, pid, hpe, -⟩
        · rw [hd] at hqd
          have := List.prefix_nil.1 hqd
          exact absurd this hq
        · have hdl : p.dropLast.length ≤ n := by
            rw [List.length_dropLast]
            have : 0 < p.length := List.length_pos.2 hpne
            omega
          exact ih p.dropLast pid hdl hpe q hq hqd

/-- Claim C4: for a well-formed registry and a nonempty path, `get_namespace`
returns a stable result: repeating the call on the resulting registry
returns the identical namespace id and leaves the registry untouched.  The
path is registered afterwards, well-formedness is preserved, every nonempty
prefix of the path is registered (intermediate segments are auto-vivified),
nothing already registered is disturbed (creation is lazy — a second lookup
from any call site sees the same id), every entry created by the call is an
empty premade namespace, and every registered path `q ++ [a]` holds a
namespace named `a` whose parent is exactly the namespace registered at `q`
(or the fresh `{}` dict when `q` is empty). -/
theorem C4_get_namespace_registry (reg : RegState) (path : List String)
    (hne : path ≠ []) (hwf : wfReg reg = true) :
    get_namespace (get_namespace reg path).2 path
        = ((get_namespace reg path).1, (get_namespace reg path).2) ∧
    alookup (get_namespace reg path).2.entries path
        = some (get_namespace reg path).1 ∧
    wfReg (get_namespace reg path).2 = true ∧
    (∀ q, q ≠ [] → q <+: path →
        (alookup (get_namespace reg path).2.entries q).isSome = true) ∧
    (∀ p i, alookup reg.entries p = some i →
        alookup (get_namespace reg path).2.entries p = some i) ∧
    (∀ p i, alookup (get_namespace reg path).2.entries p = some i →
        alookup reg.entries p = none →
        ∃ obj, alookup (get_namespace reg path).2.heap i = some obj ∧
          obj.contents = []) ∧
    (∀ q a i, alookup (get_namespace reg path).2.entries (q ++ [a]) = some i →
        ∃ obj, alookup (get_namespace reg path).2.heap i = some obj ∧
          obj.name = a ∧
          (q = [] → obj.parent = none) ∧
          (q ≠ [] → ∃ pid,
            alookup (get_namespace reg path).2.entries q = some pid ∧
            obj.parent = some pid)) := by
  cases hrev : path.reverse with
  | nil =>
      exact absurd (by simpa using congrArg List.reverse hrev) hne
  | cons last restRev =>
      have hpath : pathOf last restRev = path := by
        rw [pathOf, ← hrev, List.reverse_reverse]
      obtain ⟨awf, aself, amono, aheap, anew⟩ :=
        get_namespace_aux_spec reg hwf restRev last
      rw [hpath] at aself
      have hg : get_namespace reg path = get_namespace_aux reg last restRev := by
        rw [get_namespace, hrev]
      rw [hg]
      refine ⟨?_, aself, awf, ?_, amono, anew, ?_⟩
      · simp only [get_namespace, hrev]
        exact get_namespace_aux_of_present _ _ _ (by rw [hpath]; exact aself)
      · intro q hq hpre
        exact wf_prefix_present _ awf path.length path _ le_rfl aself q hq hpre
      · intro q a i hqi
        have hok := (wf_entry awf hqi).1
        rw [entryOK_iff] at hok
        obtain ⟨last', obj, hl, ho, hn, hrest⟩ := hok
        rw [List.getLast?_concat] at hl
        injection hl with hl
        subst hl
        refine ⟨obj, ho, hn, ?_, ?_⟩
        · intro hq
          subst hq
          rcases hrest with ⟨-, hpn⟩ | ⟨hd, -⟩
          · exact hpn
          · rw [List.dropLast_concat] at hd
            simp at hd
        · intro hq
          rcases hrest with ⟨hd, -⟩ | ⟨-, pid, hpe, hpp⟩
          · rw [List.dropLast_concat] at hd
            exact absurd hd hq
          · rw [List.dropLast_concat] at hpe
            exact ⟨pid, hpe, hpp⟩

/-- Claim C4 witness: the full registry contract instantiated at the empty
registry and the two-segment path `["a", "b"]`. -/
theorem C4_get_namespace_registry_witness :
    get_namespace (get_namespace ⟨[], [], 0⟩ ["a", "b"]).2 ["a", "b"]
        = ((get_namespace ⟨[], [], 0⟩ ["a", "b"]).1,
           (get_namespace ⟨[], [], 0⟩ ["a", "b"]).2) ∧
    alookup (get_namespace ⟨[], [], 0⟩ ["a", "b"]).2.entries ["a", "b"]
        = some (get_namespace ⟨[], [], 0⟩ ["a", "b"]).1 ∧
    wfReg (get_namespace ⟨[], [], 0⟩ ["a", "b"]).2 = true ∧
    (∀ q, q ≠ [] → q <+: ["a", "b"] →
        (alookup (get_namespace ⟨[], [], 0⟩ ["a", "b"]).2.entries q).isSome
          = true) ∧
    (∀ p i, alookup (RegState.mk [] [] 0).entries p = some i →
        alookup (get_namespace ⟨[], [], 0⟩ ["a", "b"]).2.entries p = some i) ∧
    (∀ p i, alookup (get_namespace ⟨[], [], 0⟩ ["a", "b"]).2.entries p = some i →
        alookup (RegState.mk [] [] 0).entries p = none →
        ∃ obj, alookup (get_namespace ⟨[], [], 0⟩ ["a", "b"]).2.heap i = some obj ∧
          obj.contents = []) ∧
    (∀ q a i,
        alookup (get_namespace ⟨[], [], 0⟩ ["a", "b"]).2.entries (q ++ [a])
          = some i →
        ∃ obj, alookup (get_namespace ⟨[], [], 0⟩ ["a", "b"]).2.heap i = some obj ∧
          obj.name = a ∧
          (q = [] → obj.parent = none) ∧
          (q ≠ [] → ∃ pid,
            alookup (get_namespace ⟨[], [], 0⟩ ["a", "b"]).2.entries q = some pid ∧
            obj.parent = some pid)) :=
  C4_get_namespace_registry ⟨[], [], 0⟩ ["a", "b"] (by decide) (by decide)

theorem keysUnique_storeKey {κ α : Type} [DecidableEq κ]
    (l : List (κ × α)) (k : κ) (v : α) (h : keysUnique l = true) :
    keysUnique (storeKey l k v) = true := by
  induction l with
  | nil => simp [storeKey, keysUnique, alookup]
  | cons hd tl ih =>
      obtain ⟨k₀, v₀⟩ := hd
      simp only [keysUnique, Bool.and_eq_true, Option.isNone_iff_eq_none] at h
      obtain ⟨h1, h2⟩ := h
      by_cases h0 : k₀ = k
      · subst h0
        simp [storeKey, keysUnique, h1, h2]
      · simp only [storeKey, if_neg h0]
        simp [keysUnique, alookup_storeKey_other _ _ _ _ (fun hc => h0 hc.symm),
          h1, ih h2]

theorem delKey_of_alookup {κ α : Type} [DecidableEq κ]
    {l : List (κ × α)} {k : κ} {v : α} (h : alookup l k = some v) :
    ∃ m, delKey l k = some m := by
  induction l with
  | nil => simp [alookup] at h
  | cons hd tl ih =>
      obtain ⟨k₀, v₀⟩ := hd
      by_cases h0 : k₀ = k
      · exact ⟨tl, by simp [delKey, h0]⟩
      · simp only [alookup, if_neg h0] at h
        obtain ⟨m, hm⟩ := ih h
        exact ⟨(k₀, v₀) :: m, by simp [delKey, h0, hm]⟩

theorem alookup_delKey_self {κ α : Type} [DecidableEq κ]
    {l m : List (κ × α)} {k : κ} (hu : keysUnique l = true)
    (h : delKey l k = some m) : alookup m k = none := by
  induction l generalizing m with
  | nil => simp [delKey] at h
  | cons hd tl ih =>
      obtain ⟨k₀, v₀⟩ := hd
      simp only [keysUnique, Bool.and_eq_true, Option.isNone_iff_eq_none] at hu
      obtain ⟨hu1, hu2⟩ := hu
      by_cases h0 : k₀ = k
      · subst h0
        simp only [delKey, if_true, eq_self_iff_true, Option.some.injEq] at h
        subst h
        exact hu1
      · simp only [delKey, if_neg h0] at h
        cases hd : delKey tl k with
        | none => rw [hd] at h; cases h
        | some m' =>
            rw [hd] at h
            injection h with h
            subst h
            rw [alookup_cons_ne _ _ _ _ h0]
            exact ih hu2 hd

theorem ne_append_cons (acc : List String) (e : String) (rest : List String) :
    acc ≠ acc ++ e :: rest := by
  intro h
  have := congrArg List.length h
  simp at this

theorem lookupAt_storeKey_ne (st : ClsState) (p : List String)
    (m : List (String × PyVal)) (acc : List String) (e : String)
    (hne : p ≠ acc) :
    lookupAt { st with registry := storeKey st.registry p m } acc e
      = lookupAt st acc e := by
  cases acc with
  | nil => rfl
  | cons a as =>
      simp [lookupAt, mroMapOf, alookup_storeKey_other _ _ _ _ hne]

theorem chain_resolve (st : ClsState) :
    ∀ (segs acc : List String), wfChain st acc segs = true → segs ≠ [] →
    metaGet st acc segs = .ok (.proxyV (acc ++ segs)) := by
  intro segs
  induction segs with
  | nil => intro acc _ hne; exact absurd rfl hne
  | cons e rest ih =>
      intro acc hwf _
      rw [wfChain] at hwf
      cases hl : lookupAt st acc e with
      | none => rw [hl] at hwf; cases hwf
      | some pv =>
          cases pv with
          | plain n => rw [hl] at hwf; cases hwf
          | nsref q =>
              rw [hl] at hwf
              simp only [Bool.and_eq_true, decide_eq_true_eq] at hwf
              obtain ⟨hq, hch⟩ := hwf
              subst hq
              cases rest with
              | nil => simp [metaGet, getFrom, hl]
              | cons r rs =>
                  have := ih (acc ++ [e]) hch (by simp)
                  simp only [metaGet, getFrom, hl]
                  rw [this]
                  simp

theorem wfChain_update (st : ClsState) (m : List (String × PyVal)) :
    ∀ (segs acc : List String), wfChain st acc segs = true →
    wfChain { st with registry := storeKey st.registry (acc ++ segs) m }
      acc segs = true := by
  intro segs
  induction segs with
  | nil => intro acc _; rfl
  | cons e rest ih =>
      intro acc hwf
      rw [wfChain] at hwf ⊢
      rw [lookupAt_storeKey_ne _ _ _ _ _ (Ne.symm (ne_append_cons acc e rest))]
      cases hl : lookupAt st acc e with
      | none => rw [hl] at hwf; cases hwf
      | some pv =>
          cases pv with
          | plain n => rw [hl] at hwf; cases hwf
          | nsref q =>
              rw [hl] at hwf
              simp only [Bool.and_eq_true, decide_eq_true_eq] at hwf
              obtain ⟨hq, hch⟩ := hwf
              subst hq
              simp only [Bool.and_eq_true, decide_eq_true_eq]
              refine ⟨by trivial, ?_⟩
              have := ih (acc ++ [e]) hch
              simpa [List.append_assoc] using this

theorem metaGet_append_last (st : ClsState) :
    ∀ (segs acc : List String) (fin : String), wfChain st acc segs = true →
    metaGet st acc (segs ++ [fin]) = metaGet st (acc ++ segs) [fin] := by
  intro segs
  induction segs with
  | nil => intro acc fin _; simp
  | cons e rest ih =>
      intro acc fin hwf
      rw [wfChain] at hwf
      cases hl : lookupAt st acc e with
      | none => rw [hl] at hwf; cases hwf
      | some pv =>
          cases pv with
          | plain n => rw [hl] at hwf; cases hwf
          | nsref q =>
              rw [hl] at hwf
              simp only [Bool.and_eq_true, decide_eq_true_eq] at hwf
              obtain ⟨hq, hch⟩ := hwf
              subst hq
              cases rest with
              | nil =>
                  simp [metaGet, getFrom, hl]
              | cons r rs =>
                  have h1 : metaGet st acc (e :: r :: (rs ++ [fin]))
                      = metaGet st (acc ++ [e]) (r :: (rs ++ [fin])) := by
                    simp [metaGet, getFrom, hl]
                  have h2 := ih (acc ++ [e]) fin hch
                  simp only [List.cons_append] at h2 ⊢
                  rw [h1, h2]
                  congr 1
                  simp

theorem splitLast_append (l : List String) (x : String) :
    splitLast (l ++ [x]) = some (l, x) := by
  induction l with
  | nil => rfl
  | cons y ys ih =>
      cases ys with
      | nil => rfl
      | cons b bs =>
          simp only [List.cons_append] at ih ⊢
          rw [splitLast, ih]

theorem pyGetData_eq_none (m : List (String × PyVal)) (name : String) :
    pyGetData m name = none := by
  cases h : alookup m name <;> simp [pyGetData, h, pyIsData]

theorem instGetFrom_storeKey_ne (st : InstState) (p : List String)
    (m : List (String × PyVal)) (acc : List String) (e : String)
    (hne : p ≠ acc) :
    instGetFrom { st with ireg := storeKey st.ireg p m } acc e
      = instGetFrom st acc e := by
  cases acc with
  | nil => rfl
  | cons a as =>
      simp [instGetFrom, iregMapOf, alookup_storeKey_other _ _ _ _ hne]

theorem chain_resolveI (st : InstState) :
    ∀ (segs acc : List String), wfChainI st acc segs = true → segs ≠ [] →
    instGet st acc segs = .ok (.proxy (acc ++ segs)) := by
  intro segs
  induction segs with
  | nil => intro acc _ hne; exact absurd rfl hne
  | cons e rest ih =>
      intro acc hwf _
      rw [wfChainI] at hwf
      cases hl : instGetFrom st acc e with
      | proxy q =>
          rw [hl] at hwf
          simp only [Bool.and_eq_true, decide_eq_true_eq] at hwf
          obtain ⟨hq, hch⟩ := hwf
          subst hq
          cases rest with
          | nil => simp [instGet, hl]
          | cons r rs =>
              have := ih (acc ++ [e]) hch (by simp)
              simp only [instGet, hl]
              rw [this]
              simp
      | value n => rw [hl] at hwf; cases hwf
      | rawNamespace q => rw [hl] at hwf; cases hwf
      | errName nm => rw [hl] at hwf; cases hwf

theorem wfChainI_update (st : InstState) (m : List (String × PyVal)) :
    ∀ (segs acc : List String), wfChainI st acc segs = true →
    wfChainI { st with ireg := storeKey st.ireg (acc ++ segs) m }
      acc segs = true := by
  intro segs
  induction segs with
  | nil => intro acc _; rfl
  | cons e rest ih =>
      intro acc hwf
      rw [wfChainI] at hwf ⊢
      rw [instGetFrom_storeKey_ne _ _ _ _ _ (Ne.symm (ne_append_cons acc e rest))]
      cases hl : instGetFrom st acc e with
      | proxy q =>
          rw [hl] at hwf
          simp only [Bool.and_eq_true, decide_eq_true_eq] at hwf
          obtain ⟨hq, hch⟩ := hwf
          subst hq
          simp only [Bool.and_eq_true, decide_eq_true_eq]
          refine ⟨by trivial, ?_⟩
          have := ih (acc ++ [e]) hch
          simpa [List.append_assoc] using this
      | value n => rw [hl] at hwf; cases hwf
      | rawNamespace q => rw [hl] at hwf; cases hwf
      | errName nm => rw [hl] at hwf; cases hwf

theorem instGet_append_last (st : InstState) :
    ∀ (segs acc : List String) (fin : String), wfChainI st acc segs = true →
    instGet st acc (segs ++ [fin]) = instGet st (acc ++ segs) [fin] := by
  intro segs
  induction segs with
  | nil => intro acc fin _; simp
  | cons e rest ih =>
      intro acc fin hwf
      rw [wfChainI] at hwf
      cases hl : instGetFrom st acc e with
      | proxy q =>
          rw [hl] at hwf
          simp only [Bool.and_eq_true, decide_eq_true_eq] at hwf
          obtain ⟨hq, hch⟩ := hwf
          subst hq
          cases rest with
          | nil =>
              simp [instGet, hl]
          | cons r rs =>
              have h1 : instGet st acc (e :: r :: (rs ++ [fin]))
                  = instGet st (acc ++ [e]) (r :: (rs ++ [fin])) := by
                simp [instGet, hl]
              have h2 := ih (acc ++ [e]) fin hch
              simp only [List.cons_append] at h2 ⊢
              rw [h1, h2]
              congr 1
              simp
      | value n => rw [hl] at hwf; cases hwf
      | rawNamespace q => rw [hl] at hwf; cases hwf
      | errName nm => rw [hl] at hwf; cases hwf

/-- Claim C5: on a namespace-bearing class — and likewise on an instance of
one — whose chain of nested namespaces `a :: as` is intact (any depth d),
assigning `v` through the dotted path `a.….fin` succeeds and stores into
the namespace at that path (the class-level namespace for the class target,
the lazily created per-instance namespace for the instance target); reading
the same dotted path returns `v`; deleting the dotted path succeeds; and
reading it afterwards raises AttributeError carrying the final name.  For
the instance target the stored value outranks the class side on the read,
and the final name is absent from the class-side namespace so that the
post-delete read misses everywhere. -/
theorem C5_dotted_roundtrip (st : ClsState) (ist : InstState)
    (a : String) (as : List String) (fin : String) (v : Nat)
    (hwf : wfChain st [] (a :: as) = true)
    (huniq : keysUnique ((alookup st.registry (a :: as)).getD []) = true)
    (hwfI : wfChainI ist [] (a :: as) = true)
    (huniqI : keysUnique ((alookup ist.ireg (a :: as)).getD []) = true)
    (hmroAbs : alookup (mroMapOf ist.cls (a :: as)) fin = none) :
    (∃ st₁ st₂,
      metaSet st ((a :: as) ++ [fin]) v = .ok st₁ ∧
      metaGet st₁ [] ((a :: as) ++ [fin]) = .ok (.valueV v) ∧
      metaDel st₁ ((a :: as) ++ [fin]) = .ok st₂ ∧
      metaGet st₂ [] ((a :: as) ++ [fin]) = .error (.attrError fin)) ∧
    (∃ ist₁ ist₂,
      instSetPath ist a as fin v = .ok (.stored ist₁) ∧
      instGet ist₁ [] ((a :: as) ++ [fin]) = .ok (.value v) ∧
      instDelPath ist₁ a as fin = .ok (.deleted ist₂) ∧
      instGet ist₂ [] ((a :: as) ++ [fin]) = .error (.attrError fin)) := by
  constructor
  · have hres : metaGet st [] (a :: as) = .ok (.proxyV (a :: as)) := by
      have := chain_resolve st (a :: as) [] hwf (by simp)
      simpa using this
    set m : List (String × PyVal) := (alookup st.registry (a :: as)).getD []
      with hm
    set mNew : List (String × PyVal) := storeKey m fin (.plain v) with hmNew
    set st₁ : ClsState :=
      { st with registry := storeKey st.registry (a :: as) mNew } with hst₁
    have hwf₁ : wfChain st₁ [] (a :: as) = true := by
      have := wfChain_update st mNew (a :: as) [] hwf
      simpa using this
    have hmro₁ : mroMapOf st₁ (a :: as) = mNew := by
      simp [mroMapOf, hst₁, alookup_storeKey_self]
    have hres₁ : metaGet st₁ [] (a :: as) = .ok (.proxyV (a :: as)) := by
      have := chain_resolve st₁ (a :: as) [] hwf₁ (by simp)
      simpa using this
    have hlook₁ : alookup mNew fin = some (.plain v) :=
      alookup_storeKey_self m fin (.plain v)
    obtain ⟨m₂, hm₂⟩ := delKey_of_alookup hlook₁
    set st₂ : ClsState :=
      { st₁ with registry := storeKey st₁.registry (a :: as) m₂ } with hst₂
    have hwf₂ : wfChain st₂ [] (a :: as) = true := by
      have := wfChain_update st₁ m₂ (a :: as) [] hwf₁
      simpa using this
    have hmro₂ : mroMapOf st₂ (a :: as) = m₂ := by
      simp [mroMapOf, hst₂, alookup_storeKey_self]
    have hlook₂ : alookup m₂ fin = none :=
      alookup_delKey_self (keysUnique_storeKey m fin (.plain v) huniq) hm₂
    have hsplit : splitLast (a :: (as ++ [fin])) = some (a :: as, fin) := by
      have := splitLast_append (a :: as) fin
      simpa using this
    refine ⟨st₁, st₂, ?_, ?_, ?_, ?_⟩
    · simp [metaSet, hsplit, hres, proxySetC, hst₁, hmNew, hm]
    · rw [metaGet_append_last st₁ (a :: as) [] fin hwf₁]
      simp [metaGet, getFrom, lookupAt, hmro₁, hlook₁]
    · have hd : (alookup (storeKey st.registry (a :: as) mNew) (a :: as)).getD []
          = mNew := by simp [alookup_storeKey_self]
      simp [metaDel, hsplit, hres₁, proxyDelC, hst₁, hd, hm₂, hst₂]
    · rw [metaGet_append_last st₂ (a :: as) [] fin hwf₂]
      simp [metaGet, getFrom, lookupAt, hmro₂, hlook₂]
  · have hresI : instGet ist [] (a :: as) = .ok (.proxy (a :: as)) := by
      have := chain_resolveI ist (a :: as) [] hwfI (by simp)
      simpa using this
    set mI : List (String × PyVal) := (alookup ist.ireg (a :: as)).getD []
      with hmI
    set mNewI : List (String × PyVal) := storeKey mI fin (.plain v) with hmNewI
    set ist₁ : InstState :=
      { ist with ireg := storeKey ist.ireg (a :: as) mNewI } with hist₁
    have hwfI₁ : wfChainI ist₁ [] (a :: as) = true := by
      have := wfChainI_update ist mNewI (a :: as) [] hwfI
      simpa using this
    have hireg₁ : iregMapOf ist₁ (a :: as) = mNewI := by
      simp [iregMapOf, hist₁, alookup_storeKey_self]
    have hresI₁ : instGet ist₁ [] (a :: as) = .ok (.proxy (a :: as)) := by
      have := chain_resolveI ist₁ (a :: as) [] hwfI₁ (by simp)
      simpa using this
    have hlookI₁ : alookup mNewI fin = some (.plain v) :=
      alookup_storeKey_self mI fin (.plain v)
    obtain ⟨mI₂, hmI₂⟩ := delKey_of_alookup hlookI₁
    set ist₂ : InstState :=
      { ist₁ with ireg := storeKey ist₁.ireg (a :: as) mI₂ } with hist₂
    have hwfI₂ : wfChainI ist₂ [] (a :: as) = true := by
      have := wfChainI_update ist₁ mI₂ (a :: as) [] hwfI₁
      simpa using this
    have hireg₂ : iregMapOf ist₂ (a :: as) = mI₂ := by
      simp [iregMapOf, hist₂, alookup_storeKey_self]
    have hlookI₂ : alookup mI₂ fin = none :=
      alookup_delKey_self (keysUnique_storeKey mI fin (.plain v) huniqI) hmI₂
    have hcls₁ : ist₁.cls = ist.cls := by rw [hist₁]
    have hcls₂ : ist₂.cls = ist.cls := by rw [hist₂, hist₁]
    refine ⟨ist₁, ist₂, ?_, ?_, ?_, ?_⟩
    · simp [instSetPath, hresI, proxySetI, pyGetData_eq_none, hist₁, hmNewI, hmI,
        iregMapOf]
    · rw [instGet_append_last ist₁ (a :: as) [] fin hwfI₁]
      simp [instGet, instGetFrom, hireg₁, hlookI₁]
    · have hd : iregMapOf ist₁ (a :: as) = mNewI := hireg₁
      simp [instDelPath, hresI₁, proxyDelI, pyGetData_eq_none, hd, hmI₂, hist₂]
    · rw [instGet_append_last ist₂ (a :: as) [] fin hwfI₂]
      simp [instGet, instGetFrom, hireg₂, hlookI₂, hcls₂, hmroAbs]

/-- Claim C5 witness: depth-two nesting `outer.inner.attr` at concrete
inputs — on the class, assigning 42, reading it back, deleting, reading the
failure; and the same roundtrip on an instance of the class with an empty
per-instance table. -/
theorem C5_dotted_roundtrip_witness :
    (∃ st₁ st₂,
      metaSet ⟨[("outer", .nsref ["outer"])],
          [(["outer"], [("inner", .nsref ["outer", "inner"])]),
           (["outer", "inner"], [])]⟩
          (("outer" :: ["inner"]) ++ ["attr"]) 42 = .ok st₁ ∧
      metaGet st₁ [] (("outer" :: ["inner"]) ++ ["attr"]) = .ok (.valueV 42) ∧
      metaDel st₁ (("outer" :: ["inner"]) ++ ["attr"]) = .ok st₂ ∧
      metaGet st₂ [] (("outer" :: ["inner"]) ++ ["attr"])
        = .error (.attrError "attr")) ∧
    (∃ ist₁ ist₂,
      instSetPath ⟨⟨[("outer", .nsref ["outer"])],
          [(["outer"], [("inner", .nsref ["outer", "inner"])]),
           (["outer", "inner"], [])]⟩, []⟩
          "outer" ["inner"] "attr" 42 = .ok (.stored ist₁) ∧
      instGet ist₁ [] (("outer" :: ["inner"]) ++ ["attr"]) = .ok (.value 42) ∧
      instDelPath ist₁ "outer" ["inner"] "attr" = .ok (.deleted ist₂) ∧
      instGet ist₂ [] (("outer" :: ["inner"]) ++ ["attr"])
        = .error (.attrError "attr")) :=
  C5_dotted_roundtrip
    ⟨[("outer", .nsref ["outer"])],
     [(["outer"], [("inner", .nsref ["outer", "inner"])]),
      (["outer", "inner"], [])]⟩
    ⟨⟨[("outer", .nsref ["outer"])],
      [(["outer"], [("inner", .nsref ["outer", "inner"])]),
       (["outer", "inner"], [])]⟩, []⟩
    "outer" ["inner"] "attr" 42 (by decide) (by decide) (by decide) (by decide)
    (by decide)

end ClassNamespaces
